import Mathlib

/-!
Verification of the ebook-reader core pipeline (`src/read.py`): the content
classifier `get_content_units`, the focus-window selector
`get_display_content`, the renderer `display_paragraphs`, and the navigation
cursor updates in `main`, embedded shallowly in Lean.

Conventions of the embedding:
* A BeautifulSoup parse tree is modelled by `Node`: either a `NavigableString`
  (`Node.text`) or a `Tag` with a name, its `class` attribute list and its
  children.  Attributes other than `class` never influence the code under
  study and are not modelled.
* A Python content-unit dict `{'type': t, 'content': str(element)}` is
  modelled by `ContentUnit`.  The extra field `src` records the node the unit
  was emitted from; it is provenance data used only to state document-order
  preservation.  Python dict equality (`==`, which compares the `type` and
  `content` values) is `cuEqPy`.
* Python string `.strip()` is `strTrim`, `str(element)` is `strNode`,
  `element.get_text(strip=True)` is `getTextStrip`.
* Fallible indexing (`list[i]`, which raises `IndexError` in Python) is
  modelled with `List.get?` inside `Option`; a `none` result models an
  uncaught exception.
-/

set_option maxHeartbeats 1000000

namespace EbookReader

open scoped List

/-- The content-unit type tags of `get_content_units` (`src/read.py:13-82`):
`'heading'`, `'paragraph'`, `'caption'`, `'image'`, `'list'`, `'text'`,
`'spacer'`. -/
inductive UType where
  | heading
  | paragraph
  | caption
  | image
  | list
  | text
  | spacer
  deriving DecidableEq, Repr

/-- A parse-tree node: a `NavigableString` or a `Tag` with name, `class`
attribute and children. -/
inductive Node where
  | text (s : String)
  | tag (name : String) (classes : List String) (children : List Node)
  deriving Repr

/-- The children of a node (`element.contents`); a string has none. -/
def Node.childrenOf : Node → List Node
  | .text _ => []
  | .tag _ _ ch => ch

/-- A content unit, `{'type': ..., 'content': ...}` in the source, plus the
provenance field `src` (the node the unit was emitted from, used only to state
order preservation; the Python dict has exactly the two other fields). -/
structure ContentUnit where
  type : UType
  content : String
  src : Node
  deriving Repr

instance : Inhabited ContentUnit := ⟨⟨UType.text, "", Node.text ""⟩⟩

/-- Python dict equality on content units: `cu == other` compares the `type`
and `content` values (the ghost `src` field is not part of the dict). -/
def cuEqPy (a b : ContentUnit) : Bool :=
  decide (a.type = b.type) && decide (a.content = b.content)

/-- Python `str.strip()`: leading and trailing whitespace removed. -/
def strTrim (s : String) : String :=
  ⟨((s.data.dropWhile Char.isWhitespace).reverse.dropWhile Char.isWhitespace).reverse⟩

/-- Rendering of the `class` attribute inside `str(element)`. -/
def classAttr (classes : List String) : String :=
  if classes = [] then "" else " class=\"" ++ String.intercalate " " classes ++ "\""

mutual
/-- Python `str(element)`: the markup serialization of a node. -/
def strNode : Node → String
  | .text s => s
  | .tag name cls ch => "<" ++ name ++ classAttr cls ++ ">" ++ strNodeL ch ++ "</" ++ name ++ ">"
/-- Serialization of a node list, in order. -/
def strNodeL : List Node → String
  | [] => ""
  | n :: rest => strNode n ++ strNodeL rest
end

mutual
/-- The descendant `NavigableString`s of a node, in document order (the
strings `get_text` concatenates). -/
def textL : Node → List String
  | .text s => [s]
  | .tag _ _ ch => textLL ch
/-- The descendant strings of a node list. -/
def textLL : List Node → List String
  | [] => []
  | n :: rest => textL n ++ textLL rest
end

/-- Python `element.get_text(strip=True)`: the stripped descendant strings
concatenated.  The code only tests this value for truthiness (emptiness). -/
def getTextStrip (n : Node) : String :=
  String.join ((textL n).map strTrim)

/-- The heading tag names of `src/read.py:30`. -/
def headingTags : List String := ["h1", "h2", "h3", "h4", "h5", "h6"]

mutual
/-- `process_element` of `get_content_units` (`src/read.py:20-70`): classify
one node, appending content units in document order.  The appended units are
returned as a list; Python's appends to the shared `content_units` list
concatenate in the same order. -/
def processElement : Node → List ContentUnit
  | .text s =>
      if strTrim s ≠ "" then [⟨UType.text, s, .text s⟩] else []
  | .tag name cls ch =>
      if name ∈ headingTags then
        [⟨UType.heading, strNode (.tag name cls ch), .tag name cls ch⟩]
      else if name = "p" then
        if getTextStrip (.tag name cls ch) = "" ∨ "spaceBreak1" ∈ cls then
          [⟨UType.spacer, strNode (.tag name cls ch), .tag name cls ch⟩]
        else if "caption" ∈ cls then
          [⟨UType.caption, strNode (.tag name cls ch), .tag name cls ch⟩]
        else if "centerImage" ∈ cls then
          [⟨UType.image, strNode (.tag name cls ch), .tag name cls ch⟩]
        else if "chapterSubtitle" ∈ cls ∨ "chapterSubtitle1" ∈ cls ∨ "chapterOpenerText" ∈ cls then
          [⟨UType.heading, strNode (.tag name cls ch), .tag name cls ch⟩]
        else
          [⟨UType.paragraph, strNode (.tag name cls ch), .tag name cls ch⟩]
      else if name = "ul" ∨ name = "ol" then
        [⟨UType.list, strNode (.tag name cls ch), .tag name cls ch⟩]
      else if name = "div" then
        processList ch
      else if name = "img" then
        [⟨UType.image, strNode (.tag name cls ch), .tag name cls ch⟩]
      else
        processList ch
/-- Processing of a node list, appending each node's units in order. -/
def processList : List Node → List ContentUnit
  | [] => []
  | n :: rest => processElement n ++ processList rest
end

mutual
/-- `soup.find('body')` restricted to what the code uses: the first node named
`body` in document order, the node itself included. -/
def findBody : Node → Option Node
  | .text _ => none
  | .tag name cls ch =>
      if name = "body" then some (.tag name cls ch) else findBodyL ch
/-- `find` over a node list, in order. -/
def findBodyL : List Node → Option Node
  | [] => none
  | n :: rest =>
      match findBody n with
      | some b => some b
      | none => findBodyL rest
end

/-- `get_content_units` (`src/read.py:13-82`): process the `<body>`'s children
when a `<body>` exists, the document's top-level nodes otherwise.  The
document (`soup`) is its list of top-level nodes. -/
def getContentUnits (soup : List Node) : List ContentUnit :=
  match findBodyL soup with
  | some body => processList body.childrenOf
  | none => processList soup

mutual
/-- Depth-first document-order traversal of a tree: every node, parents before
children, siblings left to right. -/
def preorder : Node → List Node
  | .text s => [Node.text s]
  | .tag name cls ch => Node.tag name cls ch :: preorderL ch
/-- Document-order traversal of a forest. -/
def preorderL : List Node → List Node
  | [] => []
  | n :: rest => preorder n ++ preorderL rest
end

/-! ## Paragraph index and focus-window selector (`get_display_content`) -/

/-- `[i for i, cu in enumerate(content_units) if cu['type'] == 'paragraph']`
(`src/read.py:104`, and again at lines 158 and 352). -/
def paragraphIndices (content_units : List ContentUnit) : List Nat :=
  ((content_units.enum.filter (fun icu => icu.2.type = UType.paragraph)).map Prod.fst)

/-- The clamping of `paragraph_index` into `[0, num_paragraphs-1]`
(`src/read.py:112-116`); only reached when `num_paragraphs > 0`. -/
def clampIndex (paragraph_index : Int) (num_paragraphs : Nat) : Int :=
  if paragraph_index < 0 then 0
  else if paragraph_index ≥ num_paragraphs then (num_paragraphs : Int) - 1
  else paragraph_index

/-- `indices_to_show` (`src/read.py:119-123`): the paragraph ordinals at
offsets `-1, 0, 1` from the clamped index that fall inside
`[0, num_paragraphs)`. -/
def indicesToShow (paragraph_index : Int) (num_paragraphs : Nat) : List Nat :=
  ([-1, 0, 1] : List Int).filterMap (fun off =>
    if 0 ≤ paragraph_index + off ∧ paragraph_index + off < (num_paragraphs : Int) then
      some (paragraph_index + off).toNat
    else none)

/-- The backward walk of `src/read.py:130-136` over a reversed prefix of the
content units: while the unit's type is `heading`/`image`/`caption`/`spacer`,
keep walking, collecting only the headings; stop at the first other unit.
The headings come out in document order (the source inserts at the front). -/
def collectHeadingsBackL : List ContentUnit → List ContentUnit
  | [] => []
  | cu :: rest =>
      if cu.type ∈ [UType.heading, UType.image, UType.caption, UType.spacer] then
        collectHeadingsBackL rest ++ (if cu.type = UType.heading then [cu] else [])
      else []

/-- The headings collected immediately before position `pos`
(`src/read.py:130-136`): the walk starts at `pos - 1` and moves down, which is
a walk over the reversed prefix `content_units[0..pos-1]`. -/
def collectHeadingsBack (content_units : List ContentUnit) (pos : Nat) : List ContentUnit :=
  collectHeadingsBackL ((content_units.take pos).reverse)

/-- The forward walk of `src/read.py:144-149` over a suffix of the content
units: while the unit's type is not `paragraph`/`heading`, append it unless it
is a `spacer`. -/
def collectAfterL : List ContentUnit → List ContentUnit
  | [] => []
  | cu :: rest =>
      if cu.type = UType.paragraph ∨ cu.type = UType.heading then []
      else (if cu.type = UType.spacer then [] else [cu]) ++ collectAfterL rest

/-- The non-paragraph units collected from position `pos` onward
(`src/read.py:144-149`): a walk over the suffix starting at `pos`. -/
def collectAfter (content_units : List ContentUnit) (pos : Nat) : List ContentUnit :=
  collectAfterL (content_units.drop pos)

/-- One iteration of the display loop (`src/read.py:126-149`) for the shown
paragraph ordinal `para_idx`: the headings preceding the paragraph, the
paragraph itself, and the trailing non-paragraph units.  The two list
indexings of the source are fallible. -/
def windowPiece (content_units : List ContentUnit) (pindices : List Nat)
    (para_idx : Nat) : Option (List ContentUnit) := do
  let pos ← pindices.get? para_idx
  let cu ← content_units.get? pos
  pure (collectHeadingsBack content_units pos ++ [cu] ++ collectAfter content_units (pos + 1))

/-- The display loop over `indices_to_show` (`src/read.py:125-149`),
concatenating each iteration's units. -/
def buildWindow (content_units : List ContentUnit) (pindices : List Nat) :
    List Nat → Option (List ContentUnit)
  | [] => some []
  | para_idx :: rest => do
      let piece ← windowPiece content_units pindices para_idx
      let restUnits ← buildWindow content_units pindices rest
      pure (piece ++ restUnits)

/-- `get_display_content` (`src/read.py:98-151`): with no paragraphs, return
`([], paragraph_index)` unchanged; otherwise clamp the index, show the
paragraphs at offsets `-1..1` and return the collected units together with
the clamped index. -/
def getDisplayContent (paragraph_index : Int) (content_units : List ContentUnit) :
    Option (List ContentUnit × Int) :=
  if (paragraphIndices content_units).length = 0 then some ([], paragraph_index)
  else
    match buildWindow content_units (paragraphIndices content_units)
        (indicesToShow (clampIndex paragraph_index (paragraphIndices content_units).length)
          (paragraphIndices content_units).length) with
    | some w => some (w, clampIndex paragraph_index (paragraphIndices content_units).length)
    | none => none

/-! ## Renderer (`display_paragraphs`) -/

/-- Strip markup tags from a serialized fragment, keeping the text between
them.  Models `BeautifulSoup(content_html, 'html.parser').get_text()`
(`src/read.py:193-202`) on the serialized trees this program feeds it. -/
def stripTagsAux : List Char → Bool → List Char
  | [], _ => []
  | c :: rest, inTag =>
      if c = '<' then stripTagsAux rest true
      else if c = '>' then stripTagsAux rest false
      else if inTag then stripTagsAux rest true
      else c :: stripTagsAux rest false

/-- The text content of a serialized markup fragment. -/
def stripTags (s : String) : String := ⟨stripTagsAux s.data false⟩

/-- Modelled from the spec: the sentence tokenizer.  The code calls
`nltk.tokenize.sent_tokenize` (`src/read.py:203`), an external library whose
code is not part of this repository; §4.5 of the spec defines the boundary
rule modelled here: a sentence boundary is a `.`, `!` or `?` followed by
whitespace, unless the `.` ends an abbreviation (a one-to-four letter token,
recognized by its capital initial, immediately before the period) or is part
of an ellipsis `...`; a decimal point or a bracketed reference marker is
never directly followed by whitespace after a `.`/`!`/`?`, so those clauses
add no further case.  `prevRev` is the current sentence so far, reversed. -/
def isAbbrevBefore (prevRev : List Char) : Bool :=
  let run := prevRev.takeWhile Char.isAlpha
  decide (1 ≤ run.length) && decide (run.length ≤ 4) &&
    (match run.getLast? with
     | some c => c.isUpper
     | none => false)

/-- Whether the character `c`, arriving after the reversed prefix `prevRev`
and before `rest`, is a sentence boundary under the spec's §4.5 rule. -/
def isBoundary (prevRev : List Char) (c : Char) (rest : List Char) : Bool :=
  (decide (c = '.') || decide (c = '!') || decide (c = '?')) &&
    (match rest with
     | d :: _ => d.isWhitespace
     | [] => false) &&
    !(decide (c = '.') &&
      ((match prevRev with
        | p :: _ => decide (p = '.')
        | [] => false) || isAbbrevBefore prevRev))

/-- The splitting loop of the tokenizer: cut after each boundary character;
the final (possibly empty) remainder is always emitted as a sentence. -/
def sentSplitAux (acc : List Char) : List Char → List (List Char)
  | [] => [acc.reverse]
  | c :: rest =>
      if isBoundary acc c rest then (c :: acc).reverse :: sentSplitAux [] rest
      else sentSplitAux (c :: acc) rest

/-- Modelled from the spec: `sent_tokenize` (§4.5).  Total by construction:
the split always emits the final remainder, and each piece is stripped. -/
def sentTokenize (s : String) : List String :=
  (sentSplitAux [] s.data).map (fun cs => strTrim ⟨cs⟩)

/-- The inline style of a highlighted sentence (`src/read.py:212-218`): the
color variable is `--color-{j % 5 + 1}` for sentence ordinal `j`. -/
def spanStyle (j : Nat) : String :=
  "background-color: var(--color-" ++ toString (j % 5 + 1) ++
    "); padding: 2px 5px; border-radius: 5px; color: var(--text-color);"

/-- The `<span>` produced for sentence ordinal `j` when the sentence strips
to something non-empty (`src/read.py:219-221`). -/
def sentenceSpan (j : Nat) (sentence : String) : String :=
  "<span style=\"" ++ spanStyle j ++ "\">" ++ strTrim sentence ++ "</span>"

/-- The highlighting loop over the tokenized sentences
(`src/read.py:204-221`): enumerate the sentences, skip the blank ones, wrap
the rest in colored spans. -/
def highlightSpans (sentences : List String) : List String :=
  sentences.enum.filterMap (fun js =>
    if strTrim js.2 ≠ "" then some (sentenceSpan js.1 js.2) else none)

/-- The focused paragraph's rendered body (`src/read.py:193-231`): strip the
markup to text, strip, tokenize, highlight, join with spaces.  The list
placeholder machinery of lines 196-201/206-211/224-229 substitutes `<ul>`/
`<ol>` descendants out and back in around tokenization using Python `id()`
values (memory addresses); it is the identity transformation for paragraphs
with no embedded list and is modelled as such. -/
def highlightParagraphContent (content_html : String) : String :=
  let paragraph_text := stripTags content_html
  let sentences := sentTokenize (strTrim paragraph_text)
  " ".intercalate (highlightSpans sentences)

/-- The CSS block shared by the unit styles (`src/read.py:173-184`),
abbreviated to a stable token: the styling text carries no logic and byte
fidelity of the CSS is irrelevant to every claim. -/
def fontStyle : String :=
  "font-family: Georgia, serif; font-weight: 450; font-size: 20px;"

/-- One iteration of the rendering loop (`src/read.py:170-253`): the `<div>`
emitted for one content unit.  `focus` is `content_units[curr_para_pos]`; the
source highlights a paragraph when `cu == content_units[curr_para_pos]`
(dict equality, `src/read.py:191`). -/
def renderUnit (focus : ContentUnit) (cu : ContentUnit) : String :=
  match cu.type with
  | UType.heading =>
      "<div style=\"" ++ fontStyle ++ " font-size: 28px; font-weight: bold;\">" ++
        cu.content ++ "</div>"
  | UType.paragraph =>
      if cuEqPy cu focus then
        "<div style=\"" ++ fontStyle ++ "\">" ++ highlightParagraphContent cu.content ++ "</div>"
      else
        "<div style=\"" ++ fontStyle ++ "\">" ++ cu.content ++ "</div>"
  | UType.caption =>
      "<div style=\"" ++ fontStyle ++ " font-size: 18px; font-style: italic;\">" ++
        cu.content ++ "</div>"
  | UType.image =>
      "<div style=\"display: flex; justify-content: center;\">" ++ cu.content ++ "</div>"
  | UType.list =>
      "<div style=\"" ++ fontStyle ++ " padding-left: 40px;\">" ++ cu.content ++ "</div>"
  | UType.spacer => ""
  | UType.text =>
      "<div style=\"" ++ fontStyle ++ "\">" ++ cu.content ++ "</div>"

/-- The outcome of `display_paragraphs`: the user-visible warning for a
chapter with no paragraphs (`st.warning`, `src/read.py:162`), or the rendered
markup (`st.write`, `src/read.py:256`). -/
inductive RenderResult where
  | warning
  | html (content : String)
  deriving DecidableEq, Repr

/-- `display_paragraphs` (`src/read.py:153-256`): warn when the chapter has
no paragraphs; otherwise look up the current paragraph's position and unit
(both fallible indexings) and render every display unit, highlighting the
units dict-equal to the focused one. -/
def displayParagraphs (display_units : List ContentUnit) (paragraph_index : Nat)
    (content_units : List ContentUnit) : Option RenderResult :=
  if (paragraphIndices content_units).length = 0 then some RenderResult.warning
  else do
    let curr_para_pos ← (paragraphIndices content_units).get? paragraph_index
    let focus ← content_units.get? curr_para_pos
    pure (RenderResult.html (String.join (display_units.map (renderUnit focus))))

/-! ## Navigation cursor (`main`, `src/read.py:360-368`) -/

/-- A navigation button press. -/
inductive NavOp where
  | previous
  | next
  deriving DecidableEq, Repr

/-- The `Previous` button (`src/read.py:362-364`): decrement only when the
current ordinal is positive. -/
def prevOp (cur : Int) : Int :=
  if 0 < cur then cur - 1 else cur

/-- The `Next` button (`src/read.py:366-368`): increment only while the
successor is below the paragraph count. -/
def nextOp (num_paragraphs : Nat) (cur : Int) : Int :=
  if cur + 1 < (num_paragraphs : Int) then cur + 1 else cur

/-- One button press applied to the session's cursor. -/
def navStep (num_paragraphs : Nat) : NavOp → Int → Int
  | NavOp.previous, cur => prevOp cur
  | NavOp.next, cur => nextOp num_paragraphs cur

/-- Every cursor value reached along a sequence of button presses, the
starting value included. -/
def navStates (num_paragraphs : Nat) : Int → List NavOp → List Int
  | cur, [] => [cur]
  | cur, op :: ops => cur :: navStates num_paragraphs (navStep num_paragraphs op cur) ops

/-! ## Derived definitions used by the theorems -/

/-- The units one iteration of the display loop contributes for the shown
paragraph ordinal `k`, expressed with total indexing; equal to `windowPiece`
whenever the indices are in bounds (`windowPiece_eq`). -/
def pieceAt (units : List ContentUnit) (pindices : List Nat) (k : Nat) : List ContentUnit :=
  collectHeadingsBack units (pindices.getD k 0) ++
    [units.getD (pindices.getD k 0) default] ++
    collectAfter units (pindices.getD k 0 + 1)

/-- The index `get_display_content` returns: unchanged when the chapter has no
paragraphs, clamped into `[0, paragraphCount-1]` otherwise. -/
def gdcClamped (idx : Int) (units : List ContentUnit) : Int :=
  if (paragraphIndices units).length = 0 then idx
  else clampIndex idx (paragraphIndices units).length

/-- From the spec's §4.4 (refinement target, written from the spec's words,
not from the code): `startPos = paragraphPositions[max(ordinal-1, 0)]`. -/
def specStartPos (units : List ContentUnit) (ordinal : Nat) : Nat :=
  (paragraphIndices units).getD (max ((ordinal : Int) - 1) 0).toNat 0

/-- From the spec's §4.4 (refinement target):
`endPos = paragraphPositions[min(ordinal+1, paragraphCount-1)]`. -/
def specEndPos (units : List ContentUnit) (ordinal : Nat) : Nat :=
  (paragraphIndices units).getD (min (ordinal + 1) ((paragraphIndices units).length - 1)) 0

/-- From the spec's §4.4 (refinement target, written from the spec's words,
not from the code): the focus window as the contiguous inclusive slice
`contentUnits[startPos..endPos]`. -/
def specFocusWindow (units : List ContentUnit) (ordinal : Nat) : List ContentUnit :=
  (units.drop (specStartPos units ordinal)).take
    (specEndPos units ordinal + 1 - specStartPos units ordinal)

/-! ## Concrete chapters for the counterexamples and witnesses -/

/-- The unit `get_content_units` emits for `<h1>T</h1>`. -/
def cuHeading : ContentUnit :=
  ⟨UType.heading, "<h1>T</h1>", Node.tag "h1" [] [Node.text "T"]⟩

/-- The unit `get_content_units` emits for `<p>A</p>`. -/
def cuPara : ContentUnit :=
  ⟨UType.paragraph, "<p>A</p>", Node.tag "p" [] [Node.text "A"]⟩

/-- The unit `get_content_units` emits for a second paragraph `<p>B</p>`. -/
def cuParaB : ContentUnit :=
  ⟨UType.paragraph, "<p>B</p>", Node.tag "p" [] [Node.text "B"]⟩

/-- The unit `get_content_units` emits for `<img>`. -/
def cuImage : ContentUnit :=
  ⟨UType.image, "<img></img>", Node.tag "img" [] []⟩

/-! ## Lemmas about the paragraph index -/

theorem mem_paragraphIndices {units : List ContentUnit} {p : Nat} :
    p ∈ paragraphIndices units ↔
      ∃ u, units.get? p = some u ∧ u.type = UType.paragraph := by
  unfold paragraphIndices
  constructor
  · intro h
    rcases List.mem_map.mp h with ⟨iu, hmem, hfst⟩
    rcases List.mem_filter.mp hmem with ⟨henum, hpred⟩
    refine ⟨iu.2, ?_, by simpa using hpred⟩
    have hget := List.mem_enum_iff_get?.mp henum
    rw [← hfst]
    simpa using hget
  · rintro ⟨u, hget, hty⟩
    refine List.mem_map.mpr ⟨(p, u), List.mem_filter.mpr ⟨?_, by simpa using hty⟩, rfl⟩
    exact List.mk_mem_enum_iff_get?.mpr (by simpa using hget)

theorem paragraphIndices_lt {units : List ContentUnit} {p : Nat}
    (h : p ∈ paragraphIndices units) : p < units.length := by
  rcases mem_paragraphIndices.mp h with ⟨u, hget, -⟩
  rcases List.get?_eq_some.mp hget with ⟨hlt, -⟩
  exact hlt

theorem paragraphIndices_type {units : List ContentUnit} {p : Nat}
    (h : p ∈ paragraphIndices units) : (units.getD p default).type = UType.paragraph := by
  rcases mem_paragraphIndices.mp h with ⟨u, hget, hty⟩
  have hget2 : units[p]? = some u := by simpa using hget
  simp [List.getD_eq_getElem?_getD, hget2, hty]

theorem length_filter_enumFrom {α : Type} (p : α → Bool) (n : Nat) (l : List α) :
    ((List.enumFrom n l).filter (fun x => p x.2)).length = (l.filter p).length := by
  induction l generalizing n with
  | nil => rfl
  | cons a l ih =>
    simp only [List.enumFrom, List.filter_cons]
    cases hpa : p a <;> simp [hpa, ih]

theorem paragraphIndices_length (units : List ContentUnit) :
    (paragraphIndices units).length = units.countP (fun u => u.type = UType.paragraph) := by
  unfold paragraphIndices
  rw [List.length_map, List.countP_eq_length_filter]
  have h := length_filter_enumFrom (fun u => decide (u.type = UType.paragraph)) 0 units
  simpa [List.enum] using h

/-! ## Lemmas about the two walks of the display loop -/

theorem collectHeadingsBackL_types {l : List ContentUnit} {u : ContentUnit}
    (h : u ∈ collectHeadingsBackL l) : u.type = UType.heading := by
  induction l with
  | nil => simp [collectHeadingsBackL] at h
  | cons cu rest ih =>
    unfold collectHeadingsBackL at h
    by_cases h1 : cu.type ∈ [UType.heading, UType.image, UType.caption, UType.spacer]
    · rw [if_pos h1] at h
      rcases List.mem_append.mp h with h2 | h2
      · exact ih h2
      · by_cases h3 : cu.type = UType.heading
        · rw [if_pos h3] at h2
          obtain rfl := List.mem_singleton.mp h2
          exact h3
        · rw [if_neg h3] at h2
          simp at h2
    · rw [if_neg h1] at h
      simp at h

theorem collectHeadingsBack_types {units : List ContentUnit} {pos : Nat} {u : ContentUnit}
    (h : u ∈ collectHeadingsBack units pos) : u.type = UType.heading :=
  collectHeadingsBackL_types h

theorem collectAfterL_types {l : List ContentUnit} {u : ContentUnit}
    (h : u ∈ collectAfterL l) :
    ¬(u.type = UType.paragraph ∨ u.type = UType.heading) := by
  induction l with
  | nil => simp [collectAfterL] at h
  | cons cu rest ih =>
    unfold collectAfterL at h
    by_cases h1 : cu.type = UType.paragraph ∨ cu.type = UType.heading
    · rw [if_pos h1] at h
      simp at h
    · rw [if_neg h1] at h
      rcases List.mem_append.mp h with h2 | h2
      · by_cases h3 : cu.type = UType.spacer
        · rw [if_pos h3] at h2
          simp at h2
        · rw [if_neg h3] at h2
          obtain rfl := List.mem_singleton.mp h2
          exact h1
      · exact ih h2

theorem mem_collectAfterL {l : List ContentUnit} (k : Nat) {u : ContentUnit}
    (hu : l.get? k = some u)
    (hne : ¬(u.type = UType.paragraph ∨ u.type = UType.heading))
    (hns : u.type ≠ UType.spacer)
    (hrun : ∀ v ∈ l.take k, ¬(v.type = UType.paragraph ∨ v.type = UType.heading)) :
    u ∈ collectAfterL l := by
  induction l generalizing k with
  | nil => simp at hu
  | cons a l ih =>
    unfold collectAfterL
    cases k with
    | zero =>
      have ha : a = u := by simpa using hu
      subst ha
      rw [if_neg hne]
      refine List.mem_append.mpr (Or.inl ?_)
      rw [if_neg hns]
      simp
    | succ k =>
      have ha : ¬(a.type = UType.paragraph ∨ a.type = UType.heading) :=
        hrun a (by simp [List.take_succ_cons])
      rw [if_neg ha]
      refine List.mem_append.mpr (Or.inr (ih k ?_ ?_))
      · simpa using hu
      · intro v hv
        refine hrun v ?_
        rw [List.take_succ_cons]
        exact List.mem_cons_of_mem _ hv

/-! ## Lemmas about the window selector -/

theorem clampIndex_bounds (idx : Int) (num : Nat) (h : 0 < num) :
    0 ≤ clampIndex idx num ∧ clampIndex idx num < (num : Int) := by
  unfold clampIndex
  split_ifs <;> omega

theorem clampIndex_eq_self {idx : Int} {num : Nat} (h0 : 0 ≤ idx) (h1 : idx < (num : Int)) :
    clampIndex idx num = idx := by
  unfold clampIndex
  split_ifs <;> omega

theorem indicesToShow_lt {pi2 : Int} {num : Nat} :
    ∀ k ∈ indicesToShow pi2 num, k < num := by
  intro k hk
  rcases List.mem_filterMap.mp hk with ⟨off, -, hf⟩
  by_cases hc : 0 ≤ pi2 + off ∧ pi2 + off < (num : Int)
  · rw [if_pos hc] at hf
    injection hf with hf
    omega
  · rw [if_neg hc] at hf
    cases hf

theorem self_mem_indicesToShow {ordinal num : Nat} (h : ordinal < num) :
    ordinal ∈ indicesToShow (ordinal : Int) num := by
  apply List.mem_filterMap.mpr
  refine ⟨0, by simp, ?_⟩
  rw [if_pos (by omega)]
  simp only [Option.some.injEq]
  omega

theorem getD_of_get? {α : Type} {l : List α} {k : Nat} {x : α} (d : α)
    (h : l.get? k = some x) : l.getD k d = x := by
  have h2 : l[k]? = some x := by simpa using h
  simp [List.getD_eq_getElem?_getD, h2]

theorem getD_mem_of_lt {α : Type} {l : List α} {k : Nat} (d : α)
    (h : k < l.length) : l.getD k d ∈ l := by
  have h2 : l[k]? = some l[k] := List.getElem?_eq_getElem h
  rw [List.getD_eq_getElem?_getD, h2]
  exact List.getElem_mem h

theorem getElem?_of_lt {α : Type} {l : List α} {k : Nat} (d : α)
    (h : k < l.length) : l[k]? = some (l.getD k d) := by
  have h2 : l[k]? = some l[k] := List.getElem?_eq_getElem h
  simp [List.getD_eq_getElem?_getD, h2]

theorem get?_of_lt {α : Type} {l : List α} {k : Nat} (d : α)
    (h : k < l.length) : l.get? k = some (l.getD k d) := by
  simpa using getElem?_of_lt d h

theorem windowPiece_eq {units : List ContentUnit} {pindices : List Nat} {k : Nat}
    (hk : k < pindices.length) (hall : ∀ p ∈ pindices, p < units.length) :
    windowPiece units pindices k = some (pieceAt units pindices k) := by
  have h1 : pindices[k]? = some (pindices.getD k 0) := getElem?_of_lt 0 hk
  have hmem : pindices.getD k 0 ∈ pindices := getD_mem_of_lt 0 hk
  have h2 : units[pindices.getD k 0]? =
      some (units.getD (pindices.getD k 0) default) := getElem?_of_lt default (hall _ hmem)
  simp only [windowPiece, List.get?_eq_getElem?, Option.bind_eq_bind, h1, Option.some_bind,
    h2, pieceAt]
  rfl

theorem buildWindow_eq {units : List ContentUnit} {pindices : List Nat} {l : List Nat}
    (hl : ∀ k ∈ l, k < pindices.length) (hall : ∀ p ∈ pindices, p < units.length) :
    buildWindow units pindices l = some ((l.map (pieceAt units pindices)).flatten) := by
  induction l with
  | nil => rfl
  | cons k rest ih =>
    have h1 := windowPiece_eq (hl k (by simp)) hall
    have h2 := ih (fun k2 hk2 => hl k2 (by simp [hk2]))
    simp [buildWindow, h1, h2]

theorem getDisplayContent_eq {idx : Int} {units : List ContentUnit}
    (hnum : (paragraphIndices units).length ≠ 0) :
    getDisplayContent idx units =
      some (((indicesToShow (clampIndex idx (paragraphIndices units).length)
          (paragraphIndices units).length).map (pieceAt units (paragraphIndices units))).flatten,
        clampIndex idx (paragraphIndices units).length) := by
  unfold getDisplayContent
  rw [if_neg hnum]
  rw [buildWindow_eq (fun k hk => indicesToShow_lt k hk) (fun p hp => paragraphIndices_lt hp)]


theorem getDisplayContent_nat_eq {units : List ContentUnit} {ordinal : Nat}
    (h : ordinal < (paragraphIndices units).length) :
    getDisplayContent (ordinal : Int) units =
      some (((indicesToShow (ordinal : Int) (paragraphIndices units).length).map
          (pieceAt units (paragraphIndices units))).flatten, (ordinal : Int)) := by
  have hc : clampIndex (ordinal : Int) (paragraphIndices units).length = (ordinal : Int) :=
    clampIndex_eq_self (by omega) (by omega)
  rw [getDisplayContent_eq (by omega), hc]

theorem flatten_map_singleton {α β : Type} (f : α → β) (l : List α) :
    (l.map (fun a => [f a])).flatten = l.map f := by
  induction l with
  | nil => rfl
  | cons a l ih => simp [ih]

/-! ## Classifier order preservation -/

mutual
theorem processElement_src_sublist (n : Node) :
    (processElement n).map ContentUnit.src <+ preorder n := by
  cases n with
  | text s =>
    by_cases h : strTrim s ≠ ""
    · simp [processElement, preorder, h]
    · simp [processElement, preorder, h]
  | tag name cls ch =>
    simp only [processElement, preorder]
    split_ifs <;>
      first
        | exact (List.nil_sublist _).cons₂ _
        | exact (processList_src_sublist ch).cons _
theorem processList_src_sublist (l : List Node) :
    (processList l).map ContentUnit.src <+ preorderL l := by
  cases l with
  | nil => simp [processList, preorderL]
  | cons n rest =>
    simp only [processList, preorderL, List.map_append]
    exact (processElement_src_sublist n).append (processList_src_sublist rest)
end

theorem preorderL_childrenOf_sublist (n : Node) : preorderL n.childrenOf <+ preorder n := by
  cases n with
  | text s => simp [Node.childrenOf, preorderL, preorder]
  | tag name cls ch => exact (List.Sublist.refl _).cons _

mutual
theorem findBody_pre (n b : Node) (h : findBody n = some b) : preorder b <+ preorder n := by
  cases n with
  | text s => simp [findBody] at h
  | tag name cls ch =>
    by_cases hn : name = "body"
    · simp only [findBody, if_pos hn] at h
      injection h with h
      rw [← h]
    · simp only [findBody, if_neg hn] at h
      exact (findBodyL_pre ch b h).cons _
theorem findBodyL_pre (l : List Node) (b : Node) (h : findBodyL l = some b) :
    preorder b <+ preorderL l := by
  cases l with
  | nil => simp [findBodyL] at h
  | cons n rest =>
    simp only [findBodyL] at h
    cases hfb : findBody n with
    | some b2 =>
      rw [hfb] at h
      have hb : b2 = b := by injection h
      subst hb
      exact (findBody_pre n b2 hfb).trans (List.sublist_append_left _ _)
    | none =>
      rw [hfb] at h
      exact (findBodyL_pre rest b h).trans (List.sublist_append_right _ _)
end

/-- Claim C5: for every parseable chapter markup tree, the classifier's output
preserves document order: the source nodes of the emitted content units form a
subsequence of the depth-first document-order traversal of the document, so no
unit is emitted out of sequence. -/
theorem classifier_preserves_document_order (soup : List Node) :
    (getContentUnits soup).map ContentUnit.src <+ preorderL soup := by
  unfold getContentUnits
  cases hfb : findBodyL soup with
  | none => exact processList_src_sublist soup
  | some body =>
    exact ((processList_src_sublist body.childrenOf).trans
      (preorderL_childrenOf_sublist body)).trans (findBodyL_pre soup body hfb)

/-! ## Tokenizer totality -/

theorem sentSplitAux_ne_nil (acc l : List Char) : sentSplitAux acc l ≠ [] := by
  induction l generalizing acc with
  | nil => simp [sentSplitAux]
  | cons c rest ih =>
    unfold sentSplitAux
    split_ifs with h
    · simp
    · exact ih _

/-- Claim C3: the sentence tokenizer is total: it is a function (it cannot
raise), every input yields at least one sentence (so in particular every
non-empty input does), and the empty input yields the single empty-string
sentence.  The tokenizer is modelled from the spec's §4.5 rule because the
code calls the external library function `nltk.tokenize.sent_tokenize`. -/
theorem sent_tokenize_total :
    (∀ s : String, sentTokenize s ≠ []) ∧ sentTokenize "" = [""] := by
  constructor
  · intro s
    unfold sentTokenize
    intro h
    exact sentSplitAux_ne_nil [] s.data (List.map_eq_nil_iff.mp h)
  · rfl

/-! ## Navigation cursor bounds -/

theorem navStates_bounded {num : Nat} (hnum : 1 ≤ num) (ops : List NavOp) (c : Int)
    (hc0 : 0 ≤ c) (hc1 : c ≤ (num : Int) - 1) :
    ∀ s ∈ navStates num c ops, 0 ≤ s ∧ s ≤ (num : Int) - 1 := by
  induction ops generalizing c with
  | nil =>
    intro s hs
    simp only [navStates, List.mem_singleton] at hs
    omega
  | cons op ops ih =>
    intro s hs
    simp only [navStates, List.mem_cons] at hs
    rcases hs with rfl | hs
    · omega
    · have hb : 0 ≤ navStep num op c ∧ navStep num op c ≤ (num : Int) - 1 := by
        cases op <;> simp only [navStep, prevOp, nextOp] <;> split_ifs <;> omega
      exact ih _ hb.1 hb.2 s hs

/-- Claim C4: starting from ordinal 0, every cursor value reached by any
sequence of Previous/Next presses stays in `[0, paragraphCount-1]` (for at
least one paragraph), and Previous at 0 and Next at the last ordinal leave
the ordinal unchanged. -/
theorem cursor_ordinal_bounded (num : Nat) (ops : List NavOp) (s : Int)
    (hnum : 1 ≤ num) (hs : s ∈ navStates num 0 ops) :
    (0 ≤ s ∧ s ≤ (num : Int) - 1) ∧ prevOp 0 = 0 ∧
      nextOp num ((num : Int) - 1) = (num : Int) - 1 := by
  refine ⟨navStates_bounded hnum ops 0 le_rfl (by omega) s hs, ?_, ?_⟩
  · simp [prevOp]
  · simp only [nextOp]
    split_ifs <;> omega

/-- Witness for C4: a chapter of five paragraphs, three Next presses from 0;
the cursor reaches 3 and stays within `[0, 4]`. -/
theorem cursor_ordinal_bounded_witness :
    ((0 : Int) ≤ 3 ∧ (3 : Int) ≤ ((5 : Nat) : Int) - 1) ∧ prevOp 0 = 0 ∧
      nextOp 5 (((5 : Nat) : Int) - 1) = ((5 : Nat) : Int) - 1 :=
  cursor_ordinal_bounded 5 [NavOp.next, NavOp.next, NavOp.next] 3 (by decide) (by decide)

/-! ## Empty paragraphs (claim C6) -/

/-- Counterexample to claim C6 as stated: a `<p>` with no text and no
attachments is not omitted by the classifier; it is emitted as a content unit
(of type `spacer`). -/
theorem empty_paragraph_not_omitted :
    processElement (Node.tag "p" [] []) ≠ [] ∧
    processElement (Node.tag "p" [] []) =
      [⟨UType.spacer, "<p></p>", Node.tag "p" [] []⟩] := by
  refine ⟨?_, rfl⟩
  intro h
  rw [show processElement (Node.tag "p" [] []) =
    [⟨UType.spacer, "<p></p>", Node.tag "p" [] []⟩] from rfl] at h
  simp at h

/-- Claim C6 (amended): a Paragraph node with no text is not dropped but
emitted as a single unit of type `spacer` (which the display loop later
filters out), never as a `paragraph` unit. -/
theorem empty_paragraph_becomes_spacer (name : String) (cls : List String) (ch : List Node)
    (hname : name = "p") (hempty : getTextStrip (Node.tag name cls ch) = "") :
    processElement (Node.tag name cls ch) =
      [⟨UType.spacer, strNode (Node.tag name cls ch), Node.tag name cls ch⟩] := by
  subst hname
  have h1 : ¬ ("p" ∈ headingTags) := by decide
  simp only [processElement]
  rw [if_neg h1]
  rw [if_pos trivial, if_pos (Or.inl hempty)]

/-- Witness for the amended C6 at the empty paragraph `<p></p>`. -/
theorem empty_paragraph_becomes_spacer_witness :
    processElement (Node.tag "p" [] []) =
      [⟨UType.spacer, strNode (Node.tag "p" [] []), Node.tag "p" [] []⟩] :=
  empty_paragraph_becomes_spacer "p" [] [] rfl rfl

/-! ## Empty chapters (claim C8) -/

/-- Claim C8: when classification yields zero Paragraph units, both halves of
the pipeline return well-defined results instead of raising: the window
selector returns the empty window with the index unchanged, and the renderer
reports the user-visible warning state. -/
theorem empty_chapter_reported (units w : List ContentUnit) (idx : Int) (pidx : Nat)
    (hzero : units.countP (fun u => u.type = UType.paragraph) = 0) :
    getDisplayContent idx units = some ([], idx) ∧
    displayParagraphs w pidx units = some RenderResult.warning := by
  have hlen : (paragraphIndices units).length = 0 := by
    rw [paragraphIndices_length]
    exact hzero
  constructor
  · unfold getDisplayContent
    rw [if_pos hlen]
  · unfold displayParagraphs
    rw [if_pos hlen]

/-- Witness for C8: a chapter holding a single heading and no paragraph. -/
theorem empty_chapter_reported_witness :
    getDisplayContent 0 [cuHeading] = some ([], 0) ∧
    displayParagraphs [] 0 [cuHeading] = some RenderResult.warning :=
  empty_chapter_reported [cuHeading] [] 0 0 (by decide)

/-! ## Renderer determinism and color assignment (claim C9) -/

/-- Claim C9: rendering is deterministic (the same cursor and window always
produce the identical output), and sentence number `j` of the focused
paragraph is styled with the cyclic color of index `j mod 5`: its span is
exactly the span built at `j mod 5`, because the style depends on `j` only
through `j mod 5`. -/
theorem render_deterministic_colors (sentences : List String) (j : Nat) (s : String)
    (hget : sentences.get? j = some s) (hne : strTrim s ≠ "") :
    sentenceSpan (j % 5) s ∈ highlightSpans sentences ∧ spanStyle j = spanStyle (j % 5) ∧
      ∀ (du : List ContentUnit) (pidx : Nat) (cu : List ContentUnit),
        displayParagraphs du pidx cu = displayParagraphs du pidx cu := by
  have hstyle : spanStyle j = spanStyle (j % 5) := by
    unfold spanStyle
    have hmod : j % 5 % 5 = j % 5 := by omega
    rw [hmod]
  refine ⟨?_, hstyle, fun _ _ _ => rfl⟩
  apply List.mem_filterMap.mpr
  refine ⟨(j, s), ?_, ?_⟩
  · exact List.mk_mem_enum_iff_get?.mpr (by simpa using hget)
  · have hspan : sentenceSpan j s = sentenceSpan (j % 5) s := by
      unfold sentenceSpan
      rw [hstyle]
    simp only [if_pos hne]
    rw [← hspan]

/-- Witness for C9: the seventh sentence (ordinal 6) of a tokenized paragraph
is rendered with color index `6 mod 5 = 1`. -/
theorem render_deterministic_colors_witness :
    sentenceSpan (6 % 5) "G." ∈ highlightSpans ["A.", "B!", "C?", "D.", "E!", "F?", "G."] ∧
    spanStyle 6 = spanStyle (6 % 5) ∧
      ∀ (du : List ContentUnit) (pidx : Nat) (cu : List ContentUnit),
        displayParagraphs du pidx cu = displayParagraphs du pidx cu :=
  render_deterministic_colors ["A.", "B!", "C?", "D.", "E!", "F?", "G."] 6 "G." rfl (by decide)

/-! ## Totality of the window selector (claim C10) -/

/-- Claim C10: `get_display_content` is total in its cursor argument: for
every integer index (negative included) it returns without raising; with no
paragraphs it returns the empty window and the index unchanged, and otherwise
it returns (and computes the window from) the index clamped into
`[0, paragraphCount-1]`. -/
theorem get_display_content_total (idx : Int) (units : List ContentUnit) :
    ∃ w, getDisplayContent idx units = some (w, gdcClamped idx units) ∧
      getDisplayContent idx units = getDisplayContent (gdcClamped idx units) units ∧
      (if (paragraphIndices units).length = 0 then w = []
       else 0 ≤ gdcClamped idx units ∧
         gdcClamped idx units < ((paragraphIndices units).length : Int)) := by
  by_cases hz : (paragraphIndices units).length = 0
  · refine ⟨[], ?_, ?_, ?_⟩
    · unfold getDisplayContent
      rw [if_pos hz]
      unfold gdcClamped
      rw [if_pos hz]
    · unfold gdcClamped
      rw [if_pos hz]
    · rw [if_pos hz]
  · have hb := clampIndex_bounds idx (paragraphIndices units).length (by omega)
    have hg : gdcClamped idx units = clampIndex idx (paragraphIndices units).length := by
      unfold gdcClamped
      rw [if_neg hz]
    refine ⟨((indicesToShow (clampIndex idx (paragraphIndices units).length)
        (paragraphIndices units).length).map (pieceAt units (paragraphIndices units))).flatten,
      ?_, ?_, ?_⟩
    · rw [getDisplayContent_eq hz, hg]
    · rw [hg, getDisplayContent_eq hz, getDisplayContent_eq hz,
        clampIndex_eq_self hb.1 hb.2]
    · rw [if_neg hz, hg]
      exact hb

/-! ## The focus window is not the spec's contiguous slice (claim C1) -/

/-- Counterexample to claim C1 as stated: in the chapter `<h1>T</h1><p>A</p>`
with cursor ordinal 0, the spec's slice `contentUnits[startPos..endPos]` is
just the paragraph, but the code's window also contains the heading at
position 0, a unit outside the slice. -/
theorem focus_window_not_contiguous_slice :
    (getDisplayContent 0 [cuHeading, cuPara]).map Prod.fst = some [cuHeading, cuPara] ∧
    specFocusWindow [cuHeading, cuPara] 0 = [cuPara] ∧
    cuHeading ∉ specFocusWindow [cuHeading, cuPara] 0 := by
  refine ⟨rfl, rfl, ?_⟩
  intro hmem
  have hm : cuHeading ∈ [cuPara] := hmem
  have heq : cuHeading = cuPara := List.mem_singleton.mp hm
  simp [cuHeading, cuPara] at heq

/-- Claim C1 (amended): for a chapter with at least one paragraph and a
cursor ordinal in range, the window returned with the unchanged ordinal has
as its Paragraph-type units exactly the paragraphs at the shown ordinals
`max(ordinal-1,0) .. min(ordinal+1, paragraphCount-1)` (`indicesToShow`), in
order; the window is not in general the contiguous slice
`contentUnits[startPos..endPos]`: each shown paragraph instead contributes
the heading run scanned backwards over heading/image/caption/spacer units,
the paragraph itself, and the following non-paragraph non-heading non-spacer
units. -/
theorem focus_window_paragraphs (units : List ContentUnit) (ordinal : Nat)
    (h : ordinal < (paragraphIndices units).length) :
    ∃ w, getDisplayContent (ordinal : Int) units = some (w, (ordinal : Int)) ∧
      w.filter (fun u => u.type = UType.paragraph) =
        (indicesToShow (ordinal : Int) (paragraphIndices units).length).map
          (fun k => units.getD ((paragraphIndices units).getD k 0) default) := by
  refine ⟨_, getDisplayContent_nat_eq h, ?_⟩
  have hstep : ∀ k ∈ indicesToShow (ordinal : Int) (paragraphIndices units).length,
      (pieceAt units (paragraphIndices units) k).filter (fun u => u.type = UType.paragraph) =
        [units.getD ((paragraphIndices units).getD k 0) default] := by
    intro k hk
    have hklt : k < (paragraphIndices units).length := indicesToShow_lt k hk
    have hmem : (paragraphIndices units).getD k 0 ∈ paragraphIndices units :=
      getD_mem_of_lt 0 hklt
    have hty := paragraphIndices_type hmem
    have e1 : (collectHeadingsBack units ((paragraphIndices units).getD k 0)).filter
        (fun u => u.type = UType.paragraph) = [] :=
      List.filter_eq_nil_iff.mpr (fun a ha => by simp [collectHeadingsBack_types ha])
    have e3 : (collectAfter units ((paragraphIndices units).getD k 0 + 1)).filter
        (fun u => u.type = UType.paragraph) = [] :=
      List.filter_eq_nil_iff.mpr (fun a ha => by
        have hna := collectAfterL_types ha
        have h2 : a.type ≠ UType.paragraph := fun hh => hna (Or.inl hh)
        simp [h2])
    unfold pieceAt
    rw [List.filter_append, List.filter_append, e1, e3, List.filter_cons,
      if_pos (by rw [hty]; decide)]
    simp
  have hmaps : ((indicesToShow (ordinal : Int) (paragraphIndices units).length).map
        (pieceAt units (paragraphIndices units))).map
          (List.filter (fun u => decide (u.type = UType.paragraph))) =
      (indicesToShow (ordinal : Int) (paragraphIndices units).length).map
        (fun k => [units.getD ((paragraphIndices units).getD k 0) default]) := by
    rw [List.map_map]
    exact List.map_congr_left hstep
  rw [List.filter_flatten, hmaps, flatten_map_singleton]

/-- Witness for the amended C1: the chapter `<h1>T</h1><p>A</p>` at ordinal 0. -/
theorem focus_window_paragraphs_witness :
    ∃ w, getDisplayContent ((0 : Nat) : Int) [cuHeading, cuPara] =
        some (w, ((0 : Nat) : Int)) ∧
      w.filter (fun u => u.type = UType.paragraph) =
        (indicesToShow ((0 : Nat) : Int) (paragraphIndices [cuHeading, cuPara]).length).map
          (fun k => [cuHeading, cuPara].getD
            ((paragraphIndices [cuHeading, cuPara]).getD k 0) default) :=
  focus_window_paragraphs [cuHeading, cuPara] 0 (by decide)

/-! ## The focused unit and its highlight (claim C2) -/

/-- Counterexample to claim C2 as stated: with two paragraphs whose dicts are
equal (`<p>A</p>` twice) and cursor ordinal 0, the window holds both, and
both satisfy the highlight test `cu == content_units[curr_para_pos]` of the
renderer, so two units are marked as focused, not exactly one. -/
theorem duplicate_paragraph_double_highlight :
    (getDisplayContent 0 [cuPara, cuPara]).map Prod.fst = some [cuPara, cuPara] ∧
    (paragraphIndices [cuPara, cuPara]).get? 0 = some 0 ∧
    ([cuPara, cuPara] : List ContentUnit).get? 0 = some cuPara ∧
    ([cuPara, cuPara].countP
      (fun cu => cu.type = UType.paragraph ∧ cuEqPy cu cuPara = true)) = 2 :=
  ⟨rfl, rfl, rfl, rfl⟩

/-- Claim C2 (amended): for a cursor ordinal in range, the window contains
the unit at `paragraphPositions[ordinal]` and that unit passes the
highlight test; every displayed paragraph whose type and content equal the
focused unit's is highlighted as well, so exactly one unit is highlighted
precisely when at most one displayed paragraph matches it (duplicate-content
paragraphs are all highlighted). -/
theorem focused_unit_highlighted (units : List ContentUnit) (ordinal pos : Nat)
    (focus : ContentUnit) (w : List ContentUnit) (ret : Int)
    (hpos : (paragraphIndices units).get? ordinal = some pos)
    (hfocus : units.get? pos = some focus)
    (hw : getDisplayContent (ordinal : Int) units = some (w, ret))
    (hone : w.countP (fun cu => cu.type = UType.paragraph ∧ cuEqPy cu focus = true) ≤ 1) :
    focus ∈ w ∧
      w.countP (fun cu => cu.type = UType.paragraph ∧ cuEqPy cu focus = true) = 1 := by
  have hord : ordinal < (paragraphIndices units).length := by
    rcases List.get?_eq_some.mp hpos with ⟨hlt, -⟩
    exact hlt
  have heq := getDisplayContent_nat_eq hord
  rw [hw] at heq
  injection heq with heq
  have hw2 : w = ((indicesToShow (ordinal : Int) (paragraphIndices units).length).map
      (pieceAt units (paragraphIndices units))).flatten := congrArg Prod.fst heq
  have hmemw : focus ∈ w := by
    rw [hw2]
    apply List.mem_flatten.mpr
    refine ⟨pieceAt units (paragraphIndices units) ordinal,
      List.mem_map.mpr ⟨ordinal, self_mem_indicesToShow hord, rfl⟩, ?_⟩
    unfold pieceAt
    rw [getD_of_get? 0 hpos, getD_of_get? default hfocus]
    simp
  refine ⟨hmemw, ?_⟩
  have hfty : focus.type = UType.paragraph := by
    have hmem : pos ∈ paragraphIndices units := List.get?_mem hpos
    rcases mem_paragraphIndices.mp hmem with ⟨u, hget, hty⟩
    rw [hget] at hfocus
    injection hfocus with hh
    rw [← hh]
    exact hty
  have hcount : 0 < w.countP (fun cu => cu.type = UType.paragraph ∧ cuEqPy cu focus = true) :=
    List.countP_pos_iff.mpr ⟨focus, hmemw, by simp [hfty, cuEqPy]⟩
  omega

/-- Witness for the amended C2: two paragraphs with distinct contents at
ordinal 0; exactly the first is highlighted. -/
theorem focused_unit_highlighted_witness :
    cuPara ∈ [cuPara, cuParaB] ∧
    ([cuPara, cuParaB].countP
      (fun cu => cu.type = UType.paragraph ∧ cuEqPy cu cuPara = true)) = 1 :=
  focused_unit_highlighted [cuPara, cuParaB] 0 0 cuPara [cuPara, cuParaB] 0
    rfl rfl rfl (by decide)

/-! ## Caption and image placement around paragraphs (claim C7) -/

/-- Counterexample to claim C7 as stated: in the chapter `<img><p>A</p>` the
image precedes the first paragraph; the claim attaches it to that following
paragraph, but the code's window for ordinal 0 is the paragraph alone — the
leading image is dropped, not attached. -/
theorem leading_image_dropped :
    (getDisplayContent 0 [cuImage, cuPara]).map Prod.fst = some [cuPara] ∧
    cuImage ∉ ([cuPara] : List ContentUnit) := by
  refine ⟨rfl, ?_⟩
  intro hmem
  have heq : cuImage = cuPara := List.mem_singleton.mp hmem
  simp [cuImage, cuPara] at heq

/-- Claim C7 (amended): a Caption or Image unit following a shown paragraph
with no Paragraph/Heading unit in between is presented with that preceding
paragraph (it appears in the window); a Caption/Image preceding the first
paragraph is dropped, not attached to the following paragraph, because the
backward walk before a paragraph presents only Heading units — headings are
standalone and nothing is ever attached to them. -/
theorem attachment_follows_paragraph (units : List ContentUnit) (ordinal pos k : Nat)
    (u : ContentUnit) (w : List ContentUnit) (ret : Int)
    (hpos : (paragraphIndices units).get? ordinal = some pos)
    (hw : getDisplayContent (ordinal : Int) units = some (w, ret))
    (hk : (units.drop (pos + 1)).get? k = some u)
    (hty : u.type = UType.caption ∨ u.type = UType.image)
    (hrun : ∀ v ∈ (units.drop (pos + 1)).take k,
      ¬(v.type = UType.paragraph ∨ v.type = UType.heading)) :
    u ∈ w ∧
      ∀ (units2 : List ContentUnit) (j : Nat) (v : ContentUnit),
        v ∈ collectHeadingsBack units2 j → v.type = UType.heading := by
  refine ⟨?_, fun _ _ _ hv => collectHeadingsBack_types hv⟩
  have hord : ordinal < (paragraphIndices units).length := by
    rcases List.get?_eq_some.mp hpos with ⟨hlt, -⟩
    exact hlt
  have heq := getDisplayContent_nat_eq hord
  rw [hw] at heq
  injection heq with heq
  have hw2 : w = ((indicesToShow (ordinal : Int) (paragraphIndices units).length).map
      (pieceAt units (paragraphIndices units))).flatten := congrArg Prod.fst heq
  rw [hw2]
  apply List.mem_flatten.mpr
  refine ⟨pieceAt units (paragraphIndices units) ordinal,
    List.mem_map.mpr ⟨ordinal, self_mem_indicesToShow hord, rfl⟩, ?_⟩
  unfold pieceAt
  rw [getD_of_get? 0 hpos]
  refine List.mem_append.mpr (Or.inr ?_)
  have hne : ¬(u.type = UType.paragraph ∨ u.type = UType.heading) := by
    rcases hty with h | h <;> simp [h]
  have hns : u.type ≠ UType.spacer := by
    rcases hty with h | h <;> simp [h]
  exact mem_collectAfterL k hk hne hns hrun

/-- Witness for the amended C7: the chapter `<p>A</p><img>` at ordinal 0; the
image immediately after the paragraph appears in the window. -/
theorem attachment_follows_paragraph_witness :
    cuImage ∈ [cuPara, cuImage] ∧
      ∀ (units2 : List ContentUnit) (j : Nat) (v : ContentUnit),
        v ∈ collectHeadingsBack units2 j → v.type = UType.heading :=
  attachment_follows_paragraph [cuPara, cuImage] 0 0 0 cuImage [cuPara, cuImage] 0
    rfl rfl rfl (Or.inr rfl) (by decide)

end EbookReader
